import Mathlib

/-!
Verification development for the codereviewer repository.

Shallow embedding of the review pipeline:
  * string helpers mirror the Go standard-library functions the code calls
    (strings.Split, strings.Join, strings.TrimSpace, strings.Contains,
    strings.HasPrefix, strings.LastIndex, strings.SplitN, filepath.Ext,
    filepath.Base);
  * `internal/domain` (Diff, Commit, Finding, Report) is embedded as Lean
    structures;
  * `internal/diff.Extract`, `internal/git.parseCommits`,
    `internal/review.Review` / `parseResponse`, `internal/notify.send` and
    `internal/app.Run` are embedded as pure functions, with the external
    effects (git subprocess calls, the model provider, json.Unmarshal,
    SMTP attempts, report persistence) passed in as function parameters.

Machine integers: all Go ints here are lengths and counts, embedded as Nat.
Strings are ASCII in all scenarios of interest; Go byte indices coincide
with Char list indices.
-/

set_option maxRecDepth 4000

namespace CodeReviewer

/-- Character class used by strings.TrimSpace; the inputs of interest are
ASCII, so we embed the ASCII fragment of unicode.IsSpace. -/
def isSpaceChar (c : Char) : Bool :=
  c = ' ' || c = '\t' || c = '\n' || c = '\x0b' || c = '\x0c' || c = '\r'

/-- List-level trim: drop spaces from the front and from the back.
Mirrors strings.TrimSpace. -/
def trimChars (l : List Char) : List Char :=
  ((l.dropWhile isSpaceChar).reverse.dropWhile isSpaceChar).reverse

/-- Embeds strings.TrimSpace. -/
def trimSpace (s : String) : String :=
  ⟨trimChars s.data⟩

/-- Embeds strings.Split(s, sep) for a one-character separator: the list of
(possibly empty) pieces between occurrences of the separator character.
Auxiliary accumulator holds the current piece reversed. -/
def splitCharAux (sep : Char) (cur : List Char) : List Char → List (List Char)
  | [] => [cur.reverse]
  | c :: rest =>
    if c = sep then cur.reverse :: splitCharAux sep [] rest
    else splitCharAux sep (c :: cur) rest

/-- Embeds strings.Split(s, "\n"): split a string into lines. -/
def splitLines (s : String) : List String :=
  (splitCharAux '\n' [] s.data).map fun l => ⟨l⟩

/-- Embeds strings.Join(elems, sep). -/
def joinStr (sep : String) : List String → String
  | [] => ""
  | [s] => s
  | s :: rest => s ++ sep ++ joinStr sep rest

/-- Substring test on character lists, used to embed strings.Contains. -/
def containsSub (sub : List Char) : List Char → Bool
  | [] => sub.isEmpty
  | c :: rest => sub.isPrefixOf (c :: rest) || containsSub sub rest

/-- Embeds strings.Contains(s, sub). -/
def strContains (s sub : String) : Bool :=
  containsSub sub.data s.data

/-- Auxiliary scan for filepath.Ext: remembers the suffix starting at the
most recent dot, resetting at every path separator. -/
def filepathExtAux (acc : Option (List Char)) : List Char → Option (List Char)
  | [] => acc
  | c :: rest =>
    if c = '/' then filepathExtAux none rest
    else if c = '.' then filepathExtAux (some (c :: rest)) rest
    else filepathExtAux acc rest

/-- Embeds path/filepath.Ext: the suffix beginning at the final dot in the
final slash-separated element of the path; empty if there is no dot. -/
def filepathExt (path : String) : String :=
  match filepathExtAux none path.data with
  | none => ""
  | some l => ⟨l⟩

/-- Embeds path/filepath.Base: strip trailing slashes, then keep the last
path element; "" gives "." and an all-slash path gives "/". -/
def filepathBase (path : String) : String :=
  match path.data with
  | [] => "."
  | cs =>
    match cs.reverse.dropWhile (fun c => c = '/') with
    | [] => "/"
    | stripped => ⟨(stripped.takeWhile (fun c => c != '/')).reverse⟩

/-- Embeds scanner.GetRepoName (internal/scanner/repos.go): the base name
of the repository path. -/
def GetRepoName (repoPath : String) : String :=
  filepathBase repoPath

/-- Embeds domain.MaxDiffLines (internal/domain, Diff file). -/
def MaxDiffLines : Nat := 300

/-- Embeds domain.SupportedExtensions: extension to language tag. Go map
used only through lookup, so an association list is an exact embedding. -/
def SupportedExtensions : List (String × String) :=
  [(".go", "go"), (".ts", "typescript"), (".dart", "dart"), (".sql", "sql")]

/-- Embeds domain.Commit. The timestamp is an abstract instant (Nat);
time.Time is only carried around, never inspected, in the embedded code. -/
structure Commit where
  Hash : String
  Author : String
  Email : String
  Timestamp : Nat
  Message : String
  RepoPath : String
  RepoName : String
deriving DecidableEq

/-- Embeds domain.Diff. -/
structure Diff where
  FilePath : String
  OldPath : String
  Content : String
  LineCount : Nat
  IsNew : Bool
  IsDeleted : Bool
  IsRenamed : Bool
  CommitHash : String
  RepoPath : String
  RepoName : String
  Language : String
deriving DecidableEq

/-- Embeds domain.Diff.IsTruncated. -/
def Diff.IsTruncated (d : Diff) : Bool :=
  decide (d.LineCount > MaxDiffLines)

/-- Embeds the exclusion substring list of Extractor.shouldExclude
(internal/diff/extract.go). -/
def excludePaths : List String :=
  ["vendor/", "node_modules/", ".gen.", ".generated.", "_generated",
   ".pb.go", ".mock.go", "_mock.go", "mocks/", "testdata/"]

/-- Embeds Extractor.shouldExclude: true when the path contains any of the
exclusion substrings. -/
def shouldExclude (path : String) : Bool :=
  excludePaths.any fun exclude => strContains path exclude

/-- Embeds the per-file body of the loop in Extractor.Extract
(internal/diff/extract.go lines 35-72). The diff fetch for one file is the
external git call getFileDiff: `none` is a per-file fetch failure (logged
and skipped in the Go code). Unset Go struct fields keep their zero
values. -/
def extractFile (commit : Commit) (fetchDiff : String → Option String)
    (file : String) : Option Diff :=
  match SupportedExtensions.lookup (filepathExt file) with
  | none => none
  | some lang =>
    if shouldExclude file then none
    else
      match fetchDiff file with
      | none => none
      | some content =>
        let lines := splitLines content
        let lineCount := lines.length
        some
          { FilePath := file
            OldPath := ""
            Content :=
              if lineCount > MaxDiffLines then
                joinStr "\n" (lines.take MaxDiffLines) ++ "\n... [truncated]"
              else content
            LineCount := lineCount
            IsNew := false
            IsDeleted := false
            IsRenamed := false
            CommitHash := commit.Hash
            RepoPath := commit.RepoPath
            RepoName := GetRepoName commit.RepoPath
            Language := lang }

/-- Embeds Extractor.Extract: the changed-file list of the commit (already
produced by the external getChangedFiles call) is filtered and mapped in
order; files rejected by the extension map, the exclusion list, or a
failed diff fetch produce no diff unit. -/
def Extract (commit : Commit) (files : List String)
    (fetchDiff : String → Option String) : List Diff :=
  files.filterMap (extractFile commit fetchDiff)

/-- Concrete commit used to exercise the extractor on closed inputs. -/
def sampleCommit : Commit :=
  ⟨"deadbeef", "Ada", "ada@example.com", 0, "msg", "/home/u/projects/acme", "acme"⟩

/-- Concrete oversized diff text: 300 newline characters, hence 301 lines. -/
def bigDiffText : String :=
  ⟨List.replicate 300 '\n'⟩

/-- The diff unit the extractor produces from `bigDiffText` for main.go. -/
def bigDiff : Diff :=
  { FilePath := "main.go"
    OldPath := ""
    Content := (⟨List.replicate 299 '\n'⟩ : String) ++ "\n... [truncated]"
    LineCount := 301
    IsNew := false
    IsDeleted := false
    IsRenamed := false
    CommitHash := "deadbeef"
    RepoPath := "/home/u/projects/acme"
    RepoName := "acme"
    Language := "go" }

/-- The diff unit the extractor produces from the two-line text "x\ny". -/
def smallDiff : Diff :=
  { FilePath := "main.go"
    OldPath := ""
    Content := "x\ny"
    LineCount := 2
    IsNew := false
    IsDeleted := false
    IsRenamed := false
    CommitHash := "deadbeef"
    RepoPath := "/home/u/projects/acme"
    RepoName := "acme"
    Language := "go" }

/-- Embeds domain.Severity: in the Go code it is a bare string type with no
validation anywhere, so any string is a legal value. -/
abbrev Severity := String

/-- Embeds domain.SeverityHigh. -/
def SeverityHigh : Severity := "High"

/-- Embeds domain.SeverityMedium. -/
def SeverityMedium : Severity := "Medium"

/-- Embeds domain.SeverityLow. -/
def SeverityLow : Severity := "Low"

/-- Embeds domain.Finding. -/
structure Finding where
  Title : String
  Severity : Severity
  RepoName : String
  Files : List String
  Explanation : String
  Action : String
deriving DecidableEq

/-- Embeds domain.Report. Date is an abstract instant, as for Commit. -/
structure Report where
  Date : Nat
  Summary : String
  Findings : List Finding
  Repositories : List String
  CommitCount : Nat
  FileCount : Nat
  NothingToNote : Bool
  Model : String
deriving DecidableEq

/-- Embeds Report.HighCount: count of findings with severity High. -/
def Report.HighCount (r : Report) : Nat :=
  r.Findings.countP fun f => f.Severity == SeverityHigh

/-- Embeds Report.MediumCount. -/
def Report.MediumCount (r : Report) : Nat :=
  r.Findings.countP fun f => f.Severity == SeverityMedium

/-- Embeds Report.LowCount. -/
def Report.LowCount (r : Report) : Nat :=
  r.Findings.countP fun f => f.Severity == SeverityLow

/-- Embeds Report.TotalFindings. -/
def Report.TotalFindings (r : Report) : Nat :=
  r.Findings.length

/-- Embeds Report.HasFindings. -/
def Report.HasFindings (r : Report) : Bool :=
  decide (0 < r.Findings.length)

/-- Embeds review.ReviewOutput: the structured output decoded from the
model response. -/
structure ReviewOutput where
  Summary : String
  Findings : List Finding
deriving DecidableEq

/-- Embeds strings.LastIndex scanning: try indices n, n-1, ..., 0 and
return the first (hence largest) index where sub is a prefix of the
remaining suffix. -/
def lastIndexFrom (s sub : List Char) : Nat → Option Nat
  | 0 => if sub.isPrefixOf s then some 0 else none
  | n + 1 =>
    if sub.isPrefixOf (s.drop (n + 1)) then some (n + 1)
    else lastIndexFrom s sub n

/-- Embeds strings.LastIndex(s, sub): the largest index at which sub
occurs, none when it does not occur. -/
def lastIndex (s sub : List Char) : Option Nat :=
  lastIndexFrom s sub s.length

/-- Embeds the fence-stripping portion of Reviewer.parseResponse
(src/unnamed/part_003 lines 161-178) at the character-list level: trim
space, then on a leading three-backtick marker with the json hint or with
no hint, drop the marker (strings.TrimPrefix) and cut at the last
three-backtick marker (strings.LastIndex), then trim space again. -/
def stripChars (l : List Char) : List Char :=
  let t0 := trimChars l
  let t1 :=
    if ("```json".data).isPrefixOf t0 then
      let t := t0.drop ("```json".data).length
      match lastIndex t ("```".data) with
      | some idx => t.take idx
      | none => t
    else if ("```".data).isPrefixOf t0 then
      let t := t0.drop ("```".data).length
      match lastIndex t ("```".data) with
      | some idx => t.take idx
      | none => t
    else t0
  trimChars t1

/-- Embeds the fence-stripping portion of Reviewer.parseResponse on
strings. -/
def parseResponseStrip (text : String) : String :=
  ⟨stripChars text.data⟩

/-- Embeds Reviewer.parseResponse: fence stripping followed by JSON
decoding. json.Unmarshal into ReviewOutput is external standard-library
code, passed in as `unmarshal`; `none` is a decode error (the Go code then
fails with the raw text attached). -/
def parseResponse (unmarshal : String → Option ReviewOutput)
    (text : String) : Option ReviewOutput :=
  unmarshal (parseResponseStrip text)

/-- Embeds the review.systemPrompt constant. -/
def systemPrompt : String :=
  "You are a senior software engineer performing a daily code review. Your role is to identify meaningful issues that matter for production code quality.\n\n"
  ++ "## Your Review Principles\n\n"
  ++ "1. **Signal over noise** – Only flag issues that genuinely matter. If the code looks fine, say so.\n"
  ++ "2. **Mentor mindset** – Explain why something is a problem, not just that it is one.\n"
  ++ "3. **Context-aware** – Consider the language, framework, and apparent intent.\n"
  ++ "4. **No nitpicking** – Ignore formatting, naming style, and minor preferences.\n"
  ++ "5. **Evidence-based** – Only flag issues you can point to in the code.\n\n"
  ++ "## What to Look For\n\n"
  ++ "- **Bugs**: Logic errors, edge cases, null/nil handling, race conditions\n"
  ++ "- **Security**: Injection risks, auth issues, sensitive data exposure\n"
  ++ "- **Data integrity**: Missing validation, transaction issues, constraint violations\n"
  ++ "- **Design**: Architectural problems, tight coupling, missing abstractions\n"
  ++ "- **Performance**: Obvious inefficiencies, N+1 queries, memory leaks\n\n"
  ++ "## What to Ignore\n\n"
  ++ "- Formatting and whitespace\n"
  ++ "- Naming conventions (unless truly confusing)\n"
  ++ "- Missing comments (unless logic is complex)\n"
  ++ "- Speculative future problems\n"
  ++ "- Style preferences"

/-- Embeds the review.outputInstructions constant (braces written as hex
escapes). -/
def outputInstructions : String :=
  "\n## Required Output Format\n\nRespond with a JSON object in this exact format:\n\n"
  ++ "\x7b\n  \"summary\": \"One or two sentence summary of the changes reviewed\",\n  \"findings\": [\n    \x7b\n      \"title\": \"Brief issue title\",\n      \"severity\": \"High|Medium|Low\",\n      \"repo_name\": \"repository-name\",\n      \"files\": [\"file1.go\", \"file2.go\"],\n      \"explanation\": \"Why this is a problem and what could go wrong\",\n      \"suggested_action\": \"Specific recommendation to fix the issue\"\n    \x7d\n  ]\n\x7d\n\n"
  ++ "If no meaningful issues are found, return:\n\x7b\n  \"summary\": \"Summary of changes reviewed\",\n  \"findings\": []\n\x7d\n\nRespond ONLY with the JSON object, no additional text."

/-- Embeds Reviewer.buildPrompt: system block, one section per diff unit in
order, then the output-format block. -/
def buildPrompt (diffs : List Diff) : String :=
  systemPrompt ++ "\n\n" ++ "## Code Changes to Review\n\n"
  ++ String.join (diffs.map fun d =>
      "### Repository: " ++ d.RepoName ++ "\n"
      ++ "### File: " ++ d.FilePath ++ " (" ++ d.Language ++ ")\n"
      ++ "```diff\n" ++ d.Content ++ "\n```\n\n")
  ++ outputInstructions

/-- Result of Reviewer.Review: the returned value (`none` is an error) and
whether the model provider was invoked. -/
structure ReviewCall where
  result : Option (List Finding × String)
  modelCalled : Bool
deriving DecidableEq

/-- Embeds Reviewer.Review (src/unnamed/part_003 lines 115-139): empty
input short-circuits before any provider call; otherwise one generate call
whose text response is parsed; generate and unmarshal failures are
errors. -/
def Review (generate : String → Option String)
    (unmarshal : String → Option ReviewOutput) (diffs : List Diff) :
    ReviewCall :=
  if diffs.length = 0 then ⟨some ([], "No changes to review."), false⟩
  else
    match generate (buildPrompt diffs) with
    | none => ⟨none, true⟩
    | some answer =>
      match parseResponse unmarshal answer with
      | none => ⟨none, true⟩
      | some output => ⟨some (output.Findings, output.Summary), true⟩

/-- Outcome of Service.send: delivered, or a terminal wrapped error. -/
inductive SendOutcome where
  | delivered : SendOutcome
  | terminal : String → SendOutcome
deriving DecidableEq

/-- Trace of one Service.send call: its outcome, the backoff sleeps
performed (in seconds), and the attempt numbers tried, in order. -/
structure SendTrace where
  outcome : SendOutcome
  sleeps : List Nat
  attempts : List Nat
deriving DecidableEq

/-- Embeds the retry loop of Service.send (internal/notify/email.go lines
67-83). `attemptFn n` is the external sendWithTimeout call of attempt n:
`none` is success, `some e` a failure with error text e. The first
argument is the remaining loop iterations (the loop bound is 3), the
second the current attempt number. -/
def sendAttempts (attemptFn : Nat → Option String) :
    Nat → Nat → String → List Nat → List Nat → SendTrace
  | 0, _, lastErr, sleeps, tried =>
    ⟨.terminal ("failed after 3 attempts: " ++ lastErr), sleeps, tried⟩
  | rem + 1, attempt, _, sleeps, tried =>
    match attemptFn attempt with
    | none => ⟨.delivered, sleeps, tried ++ [attempt]⟩
    | some e =>
      if attempt < 3 then
        sendAttempts attemptFn rem (attempt + 1) e
          (sleeps ++ [attempt * attempt]) (tried ++ [attempt])
      else sendAttempts attemptFn rem (attempt + 1) e sleeps (tried ++ [attempt])

/-- Embeds Service.send: up to 3 attempts starting at attempt 1. -/
def send (attemptFn : Nat → Option String) : SendTrace :=
  sendAttempts attemptFn 3 1 "" [] []

/-- Embeds the line-splitting of bufio.Scanner with ScanLines, used by
parseCommits: tokens are the lines without their terminators, a final
newline produces no extra empty token, and a trailing carriage return is
dropped from each line. -/
def dropCR (l : String) : String :=
  if l.data.getLast? = some '\r' then ⟨l.data.dropLast⟩ else l

/-- Embeds the sequence of lines bufio.Scanner yields for a byte string. -/
def scanLines (s : String) : List String :=
  if s = "" then []
  else
    let ls := splitLines s
    let ls' := if s.data.getLast? = some '\n' then ls.dropLast else ls
    ls'.map dropCR

/-- Embeds strings.SplitN(s, sep, n) for a one-character separator and
n > 0: at most n pieces, the last piece holding the unsplit remainder. -/
def splitN (s : String) (sep : Char) (n : Nat) : List String :=
  let parts := (splitCharAux sep [] s.data).map fun l => (⟨l⟩ : String)
  if parts.length ≤ n then parts
  else parts.take (n - 1) ++ [joinStr ⟨[sep]⟩ (parts.drop (n - 1))]

/-- Embeds the per-line body of Client.parseCommits (src/unnamed/part_002
lines 66-92): skip empty lines, split into at most five fields, skip lines
with fewer than five fields, parse the timestamp field (time.Parse with
RFC3339 is external, passed in as parseTime; `none` is a parse error,
logged and skipped), and otherwise build the commit. -/
def parseLine (parseTime : String → Option Nat) (repoPath : String)
    (line : String) : Option Commit :=
  if line = "" then none
  else
    match splitN line '|' 5 with
    | [hash, author, email, ts, message] =>
      match parseTime ts with
      | none => none
      | some t =>
        some ⟨hash, author, email, t, message, repoPath, GetRepoName repoPath⟩
    | _ => none

/-- Embeds the loop of Client.parseCommits over already-scanned lines. -/
def parseCommitLines (parseTime : String → Option Nat) (repoPath : String)
    (ls : List String) : List Commit :=
  ls.filterMap (parseLine parseTime repoPath)

/-- Embeds Client.parseCommits: scan the git log output into lines and
fold each into a commit where well-formed. -/
def parseCommits (parseTime : String → Option Nat) (output : String)
    (repoPath : String) : List Commit :=
  parseCommitLines parseTime repoPath (scanLines output)

/-- Effects of one Runner.Run: the reports handed to report persistence,
whether Review was invoked, and the reports passed to SendReport. -/
structure RunEffects where
  written : List Report
  reviewInvoked : Bool
  sendAttempted : List Report
deriving DecidableEq

/-- Termination status of Runner.Run. -/
inductive RunOutcome where
  | ok : RunOutcome
  | failed : String → RunOutcome
deriving DecidableEq

/-- Embeds Runner.handleNoFindings (internal/config/config.go, app
package, lines 307-321): the report written when there is nothing to
review; all unset Go fields keep zero values. -/
def handleNoFindings (now : Nat) : Report :=
  { Date := now
    Summary := "No code changes to review today."
    Findings := []
    Repositories := []
    CommitCount := 0
    FileCount := 0
    NothingToNote := true
    Model := "" }

/-- Embeds the commit-accumulation loop of Runner.Run (step 2): a per-repo
query failure (`none`) is logged and skipped. -/
def collectCommits (repos : List String)
    (getCommits : String → Option (List Commit)) : List Commit :=
  repos.foldl (fun acc repoPath =>
    match getCommits repoPath with
    | none => acc
    | some commits => acc ++ commits) []

/-- Embeds the diff-accumulation loop of Runner.Run (step 3): a per-commit
extraction failure (`none`) is logged and skipped. -/
def collectDiffs (commits : List Commit)
    (extract : Commit → Option (List Diff)) : List Diff :=
  commits.foldl (fun acc commit =>
    match extract commit with
    | none => acc
    | some diffs => acc ++ diffs) []

/-- Embeds Runner.Run (internal/config/config.go, app package, lines
195-305). External collaborators are parameters: getCommits and extract
are the per-unit git stages (with per-unit failures skipped), reviewFn is
reviewer initialization plus Review (`none` is a terminal error), report
persistence is assumed to succeed, emailEnabled is config.Email.Enabled
and sendOk the outcome of Service.SendReport. Returns the observable
effects and the run status. -/
def Run (repos : List String) (getCommits : String → Option (List Commit))
    (extract : Commit → Option (List Diff))
    (reviewFn : List Diff → Option (List Finding × String))
    (emailEnabled : Bool) (sendOk : Bool) (now : Nat) :
    RunEffects × RunOutcome :=
  if repos.length = 0 then
    (⟨[], false, []⟩, .ok)
  else
    let allCommits := collectCommits repos getCommits
    if allCommits.length = 0 then
      (⟨[handleNoFindings now], false, []⟩, .ok)
    else
      let allDiffs := collectDiffs allCommits extract
      if allDiffs.length = 0 then
        (⟨[handleNoFindings now], false, []⟩, .ok)
      else
        match reviewFn allDiffs with
        | none => (⟨[], true, []⟩, .failed "reviewing code")
        | some (findings, summary) =>
          let rpt : Report :=
            { Date := now
              Summary := summary
              Findings := findings
              Repositories := repos
              CommitCount := allCommits.length
              FileCount := allDiffs.length
              NothingToNote := false
              Model := "" }
          if emailEnabled && rpt.HasFindings then
            if sendOk then (⟨[rpt], true, [rpt]⟩, .ok)
            else (⟨[rpt], true, [rpt]⟩, .failed "sending email")
          else (⟨[rpt], true, []⟩, .ok)

/-- Concrete finding used in closed scenarios. -/
def sampleFinding : Finding :=
  ⟨"SQL injection", "High", "acme", ["main.go"], "concat", "use placeholders"⟩

/-- Concrete finding carrying a severity outside the enumerated set. -/
def criticalFinding : Finding :=
  ⟨"meltdown", "Critical", "acme", ["main.go"], "bad", "fix"⟩

/-- Concrete well-formed JSON review response (braces as hex escapes). -/
def jsonResponseText : String :=
  "\x7b\"summary\":\"ok\",\"findings\":[]\x7d"

/-- The ReviewOutput that json.Unmarshal produces from jsonResponseText. -/
def jsonResponseOutput : ReviewOutput :=
  ⟨"ok", []⟩

/-- Concrete stand-in for json.Unmarshal: decodes exactly the sample
response. -/
def sampleUnmarshal : String → Option ReviewOutput :=
  fun s => if s = jsonResponseText then some jsonResponseOutput else none

/-- The report Run assembles in the closed one-repo one-commit one-diff
one-finding scenario. -/
def sentReport : Report :=
  { Date := 5
    Summary := "sum"
    Findings := [sampleFinding]
    Repositories := ["r"]
    CommitCount := 1
    FileCount := 1
    NothingToNote := false
    Model := "" }

/-- A model response fenced with the language tag json (wrapping realised
with string append, as in tag concatenation). -/
def fenceWrap (tag J : String) : String :=
  "```" ++ tag ++ "\n" ++ J ++ "\n```"

/-- Concrete stand-in for time.Parse: parses exactly the field "TS". -/
def sampleParseTime : String → Option Nat :=
  fun s => if s = "TS" then some 7 else none

/-- A ReviewOutput carrying a finding whose severity is outside the
enumerated High/Medium/Low set. -/
def criticalOutput : ReviewOutput :=
  ⟨"s", [criticalFinding]⟩

/-- Concrete stand-in for json.Unmarshal decoding the response "CRIT" to
criticalOutput. -/
def criticalUnmarshal : String → Option ReviewOutput :=
  fun s => if s = "CRIT" then some criticalOutput else none

/-- A report holding exactly the finding with the out-of-range
severity. -/
def criticalReport : Report :=
  { Date := 0
    Summary := "s"
    Findings := [criticalFinding]
    Repositories := []
    CommitCount := 0
    FileCount := 0
    NothingToNote := false
    Model := "" }

end CodeReviewer

namespace CodeReviewer

theorem extractFile_spec (commit : Commit) (fetchDiff : String → Option String)
    (file : String) (d : Diff) (h : extractFile commit fetchDiff file = some d) :
    ∃ lang orig, SupportedExtensions.lookup (filepathExt file) = some lang ∧
      shouldExclude file = false ∧
      fetchDiff file = some orig ∧
      d.FilePath = file ∧ d.Language = lang ∧
      d.LineCount = (splitLines orig).length ∧
      d.Content = (if (splitLines orig).length > MaxDiffLines then
          joinStr "\n" ((splitLines orig).take MaxDiffLines) ++ "\n... [truncated]"
        else orig) := by
  unfold extractFile at h
  split at h
  · exact absurd h (by simp)
  next lang hlang =>
    split at h
    · exact absurd h (by simp)
    next hexc =>
      split at h
      · exact absurd h (by simp)
      next orig horig =>
        cases h
        exact ⟨lang, orig, hlang, Bool.of_not_eq_true hexc, horig,
          rfl, rfl, rfl, rfl⟩

theorem extract_mem_spec (commit : Commit) (files : List String)
    (fetchDiff : String → Option String) (d : Diff)
    (hd : d ∈ Extract commit files fetchDiff) :
    SupportedExtensions.lookup (filepathExt d.FilePath) = some d.Language ∧
    shouldExclude d.FilePath = false ∧
    ∃ orig, fetchDiff d.FilePath = some orig ∧
      d.LineCount = (splitLines orig).length ∧
      d.Content = (if (splitLines orig).length > MaxDiffLines then
          joinStr "\n" ((splitLines orig).take MaxDiffLines) ++ "\n... [truncated]"
        else orig) := by
  rw [Extract, List.mem_filterMap] at hd
  obtain ⟨file, _, hf⟩ := hd
  obtain ⟨lang, orig, h1, h2, h3, h4, h5, h6, h7⟩ :=
    extractFile_spec commit fetchDiff file d hf
  subst h4; subst h5
  exact ⟨h1, h2, orig, h3, h6, h7⟩

/-- C1: every diff unit produced by Extract whose (pre-truncation) line count
exceeds 300 stores as Content the first 300 lines of the original diff text
followed by the truncation marker line, keeps the true line count in
LineCount, and satisfies IsTruncated = true. -/
theorem extract_truncation (commit : Commit)
    (files : List String) (fetchDiff : String → Option String)
    (d : Diff) (hd : d ∈ Extract commit files fetchDiff)
    (hbig : MaxDiffLines < d.LineCount) :
    d.IsTruncated = true ∧
    ∃ orig, fetchDiff d.FilePath = some orig ∧
      d.LineCount = (splitLines orig).length ∧
      d.Content = joinStr "\n"
          ((splitLines orig).take MaxDiffLines) ++
        "\n... [truncated]" := by
  obtain ⟨-, -, orig, horig, hcount, hcontent⟩ :=
    extract_mem_spec commit files fetchDiff d hd
  refine ⟨by simp [Diff.IsTruncated, hbig], orig, horig, hcount, ?_⟩
  rw [hcontent, if_pos (by omega)]

/-- C1 witness: a 301-line diff for main.go is truncated to 300 lines plus
the marker, with LineCount 301 and IsTruncated true. -/
theorem extract_truncation_witness :
    bigDiff.IsTruncated = true ∧
    ∃ orig, (fun _ => some bigDiffText) bigDiff.FilePath
        = some orig ∧
      bigDiff.LineCount = (splitLines orig).length ∧
      bigDiff.Content = joinStr "\n"
          ((splitLines orig).take MaxDiffLines) ++
        "\n... [truncated]" :=
  extract_truncation sampleCommit ["main.go"]
    (fun _ => some bigDiffText) bigDiff
    (by decide) (by decide)

/-- C2: every diff unit produced by Extract has a file path whose extension
is a key of the supported-language map, with Language the mapped tag, and
the path contains none of the fixed exclusion substrings. -/
theorem extract_filters (commit : Commit) (files : List String)
    (fetchDiff : String → Option String) (d : Diff)
    (hd : d ∈ Extract commit files fetchDiff) :
    SupportedExtensions.lookup (filepathExt d.FilePath) = some d.Language ∧
    shouldExclude d.FilePath = false ∧
    ∀ sub ∈ excludePaths, strContains d.FilePath sub = false := by
  obtain ⟨h1, h2, -⟩ := extract_mem_spec commit files fetchDiff d hd
  refine ⟨h1, h2, fun sub hsub => ?_⟩
  rw [shouldExclude] at h2
  simpa using List.any_eq_false.mp h2 sub hsub

/-- C2 witness: extracting from a commit whose changed files include a
supported file, an excluded vendor file and an unsupported extension keeps
only main.go, with Language go and no exclusion substring in the path. -/
theorem extract_filters_witness :
    SupportedExtensions.lookup (filepathExt smallDiff.FilePath)
      = some smallDiff.Language ∧
    shouldExclude smallDiff.FilePath = false ∧
    ∀ sub ∈ excludePaths, strContains smallDiff.FilePath sub = false :=
  extract_filters sampleCommit ["main.go", "vendor/lib.go", "notes.txt"]
    (fun _ => some "x\ny") smallDiff (by decide)

/-- C9: the 300-line boundary is strict: a diff unit whose line count is
at most 300 stores the original text unmodified and IsTruncated is
false. -/
theorem extract_no_truncation (commit : Commit) (files : List String)
    (fetchDiff : String → Option String) (d : Diff)
    (hd : d ∈ Extract commit files fetchDiff)
    (hsmall : d.LineCount ≤ MaxDiffLines) :
    d.IsTruncated = false ∧
    ∃ orig, fetchDiff d.FilePath = some orig ∧
      d.LineCount = (splitLines orig).length ∧ d.Content = orig := by
  obtain ⟨-, -, orig, horig, hcount, hcontent⟩ :=
    extract_mem_spec commit files fetchDiff d hd
  refine ⟨?_, orig, horig, hcount, ?_⟩
  · simp only [Diff.IsTruncated, decide_eq_false_iff_not]
    omega
  · rw [hcontent, if_neg (by omega)]

/-- C9 witness: a two-line diff passes through unmodified with
IsTruncated false. -/
theorem extract_no_truncation_witness :
    smallDiff.IsTruncated = false ∧
    ∃ orig, (fun _ => some "x\ny") smallDiff.FilePath = some orig ∧
      smallDiff.LineCount = (splitLines orig).length ∧
      smallDiff.Content = orig :=
  extract_no_truncation sampleCommit ["main.go"] (fun _ => some "x\ny")
    smallDiff (by decide) (by decide)

/-- C6: on the empty diff collection, Review returns the empty finding
list and exactly the summary string without error, and the model provider
is never invoked. -/
theorem review_empty_short_circuit (generate : String → Option String)
    (unmarshal : String → Option ReviewOutput) :
    Review generate unmarshal [] =
      ⟨some ([], "No changes to review."), false⟩ :=
  rfl

/-- C3 counterexample: a run that finds zero repositories returns
immediately and hands nothing to report persistence, so no report with
NothingToNote = true is constructed on that path. -/
theorem run_zero_repos_no_report :
    (Run [] (fun _ => none) (fun _ => none) (fun _ => none) true true 0).1.written
      = [] ∧
    ¬ ∃ rpt ∈ (Run [] (fun _ => none) (fun _ => none) (fun _ => none)
        true true 0).1.written, rpt.NothingToNote = true := by
  decide

/-- C3 (amended): a run that finds zero commits or zero diff units (with
at least one repository) short-circuits to report assembly: exactly the
NothingToNote report is handed to persistence, review is skipped and
delivery is not invoked; a run that finds zero repositories also skips
review and delivery but returns with no report at all. -/
theorem run_short_circuit (repos : List String)
    (getCommits : String → Option (List Commit))
    (extract : Commit → Option (List Diff))
    (reviewFn : List Diff → Option (List Finding × String))
    (emailEnabled sendOk : Bool) (now : Nat)
    (h : repos = [] ∨ collectCommits repos getCommits = [] ∨
      collectDiffs (collectCommits repos getCommits) extract = []) :
    (Run repos getCommits extract reviewFn emailEnabled sendOk now).2 = .ok ∧
    (Run repos getCommits extract reviewFn emailEnabled sendOk now).1.reviewInvoked
      = false ∧
    (Run repos getCommits extract reviewFn emailEnabled sendOk now).1.sendAttempted
      = [] ∧
    (Run repos getCommits extract reviewFn emailEnabled sendOk now).1.written =
      (if repos = [] then [] else [handleNoFindings now]) := by
  rcases h with h | h | h
  · subst h; simp [Run]
  · rcases repos with _ | ⟨r, rs⟩
    · simp [Run]
    · simp [Run, h]
  · rcases repos with _ | ⟨r, rs⟩
    · simp [Run]
    · by_cases hc : collectCommits (r :: rs) getCommits = []
      · simp [Run, hc]
      · simp [Run, hc, h, List.length_eq_zero]

/-- C3 witness: one repository with an empty commit list today yields an
ok run whose only persisted report is the NothingToNote report, with
review and delivery skipped. -/
theorem run_short_circuit_witness :
    (Run ["r"] (fun _ => some []) (fun _ => none) (fun _ => none)
      true true 7).2 = .ok ∧
    (Run ["r"] (fun _ => some []) (fun _ => none) (fun _ => none)
      true true 7).1.reviewInvoked = false ∧
    (Run ["r"] (fun _ => some []) (fun _ => none) (fun _ => none)
      true true 7).1.sendAttempted = [] ∧
    (Run ["r"] (fun _ => some []) (fun _ => none) (fun _ => none)
      true true 7).1.written =
      (if (["r"] : List String) = [] then [] else [handleNoFindings 7]) :=
  run_short_circuit ["r"] (fun _ => some []) (fun _ => none) (fun _ => none)
    true true 7 (Or.inr (Or.inl (by decide)))

/-- C7: every report the orchestrator passes to SendReport occurs in a run
with email enabled and itself has at least one finding; in particular no
delivery happens on early-exit paths or for finding-free reports. -/
theorem run_send_guard (repos : List String)
    (getCommits : String → Option (List Commit))
    (extract : Commit → Option (List Diff))
    (reviewFn : List Diff → Option (List Finding × String))
    (emailEnabled sendOk : Bool) (now : Nat) :
    ∀ rpt ∈ (Run repos getCommits extract reviewFn emailEnabled sendOk
        now).1.sendAttempted,
      emailEnabled = true ∧ rpt.HasFindings = true ∧ 0 < rpt.Findings.length := by
  intro rpt hmem
  rw [Run] at hmem
  split at hmem
  · simp at hmem
  · simp only at hmem
    split at hmem
    · simp at hmem
    · split at hmem
      · simp at hmem
      · split at hmem
        · simp at hmem
        next findings summary heq =>
          split at hmem
          next hguard =>
            rw [Bool.and_eq_true] at hguard
            split at hmem <;>
              (simp only [List.mem_singleton] at hmem; subst hmem;
               refine ⟨hguard.1, hguard.2, ?_⟩;
               have := hguard.2; simpa [Report.HasFindings] using this)
          next hguard => simp at hmem

/-- C7 witness: in the closed scenario with one finding and email enabled,
the one report handed to SendReport has HasFindings true. -/
theorem run_send_guard_witness :
    true = true ∧ sentReport.HasFindings = true ∧
      0 < sentReport.Findings.length :=
  run_send_guard ["r"] (fun _ => some [sampleCommit])
    (fun _ => some [smallDiff]) (fun _ => some ([sampleFinding], "sum"))
    true true 5 sentReport (by decide)

/-- C5: send makes at most 3 attempts, sleeping attempt-squared seconds
between attempts (1s after the first failure, 4s after the second); a
success on any attempt returns delivered with the sleeps so far, and three
failures return a terminal error wrapping the last failure and mentioning
the 3 attempts. -/
theorem send_retry (f : Nat → Option String) :
    (send f).attempts.length ≤ 3 ∧
    (f 1 = none → send f = ⟨.delivered, [], [1]⟩) ∧
    (∀ e1, f 1 = some e1 → f 2 = none →
      send f = ⟨.delivered, [1], [1, 2]⟩) ∧
    (∀ e1 e2, f 1 = some e1 → f 2 = some e2 → f 3 = none →
      send f = ⟨.delivered, [1, 4], [1, 2, 3]⟩) ∧
    (∀ e1 e2 e3, f 1 = some e1 → f 2 = some e2 → f 3 = some e3 →
      send f = ⟨.terminal ("failed after 3 attempts: " ++ e3),
        [1, 4], [1, 2, 3]⟩) := by
  rcases h1 : f 1 with _ | e1 <;> rcases h2 : f 2 with _ | e2 <;>
    rcases h3 : f 3 with _ | e3 <;>
    simp [send, sendAttempts, h1, h2, h3]

/-- C5 witness: three failing attempts give the terminal wrapped error
after sleeping 1s then 4s. -/
theorem send_retry_witness :
    send (fun _ => some "boom") =
      ⟨.terminal ("failed after 3 attempts: " ++ "boom"), [1, 4], [1, 2, 3]⟩ :=
  (send_retry (fun _ => some "boom")).2.2.2.2 "boom" "boom" "boom"
    rfl rfl rfl

theorem parseLine_none_of_malformed (pt : String → Option Nat)
    (repoPath bad : String)
    (h : (splitN bad '|' 5).length < 5 ∨
      (∃ hash author email ts msg,
        splitN bad '|' 5 = [hash, author, email, ts, msg] ∧ pt ts = none)) :
    parseLine pt repoPath bad = none := by
  by_cases he : bad = ""
  · simp [parseLine, he]
  · rw [parseLine, if_neg he]
    rcases h with h | ⟨hash, author, email, ts, msg, hs, hts⟩
    · rcases h5 : splitN bad '|' 5 with
        _ | ⟨a, _ | ⟨b, _ | ⟨c, _ | ⟨d, _ | ⟨e, _ | ⟨g, t⟩⟩⟩⟩⟩⟩ <;> simp_all
    · rw [hs]
      simp [hts]

/-- C8: a non-empty commit-log line splitting into the five delimited
fields with a parseable timestamp yields exactly that commit; a line with
fewer than five fields, or whose timestamp field fails to parse, is
skipped while the surrounding lines still parse — it never aborts the
query. -/
theorem parse_commits_malformed (pt : String → Option Nat)
    (repoPath : String) :
    (∀ line hash author email ts msg t,
      splitN line '|' 5 = [hash, author, email, ts, msg] → line ≠ "" →
      pt ts = some t →
      parseLine pt repoPath line =
        some ⟨hash, author, email, t, msg, repoPath, GetRepoName repoPath⟩) ∧
    (∀ ls1 ls2 bad,
      ((splitN bad '|' 5).length < 5 ∨
        (∃ hash author email ts msg,
          splitN bad '|' 5 = [hash, author, email, ts, msg] ∧ pt ts = none)) →
      parseCommitLines pt repoPath (ls1 ++ bad :: ls2) =
        parseCommitLines pt repoPath ls1 ++ parseCommitLines pt repoPath ls2) := by
  constructor
  · intro line hash author email ts msg t hs hne hts
    rw [parseLine, if_neg hne, hs]
    simp [hts]
  · intro ls1 ls2 bad h
    rw [parseCommitLines, parseCommitLines, parseCommitLines,
      List.filterMap_append, List.filterMap_cons,
      parseLine_none_of_malformed pt repoPath bad h]

/-- C8 witness: a well-formed line parses to its commit, and inserting a
two-field line between two well-formed lines leaves the parse of the
others unchanged. -/
theorem parse_commits_malformed_witness :
    parseLine sampleParseTime "/r/acme" "h|a|e|TS|subject" =
      some ⟨"h", "a", "e", 7, "subject", "/r/acme", "acme"⟩ ∧
    parseCommitLines sampleParseTime "/r/acme"
        (["h|a|e|TS|subject"] ++ "bad|line" :: ["h2|a2|e2|TS|s2"]) =
      parseCommitLines sampleParseTime "/r/acme" ["h|a|e|TS|subject"] ++
        parseCommitLines sampleParseTime "/r/acme" ["h2|a2|e2|TS|s2"] :=
  ⟨(parse_commits_malformed sampleParseTime "/r/acme").1
      "h|a|e|TS|subject" "h" "a" "e" "TS" "subject" 7
      (by decide) (by decide) (by decide),
    (parse_commits_malformed sampleParseTime "/r/acme").2
      ["h|a|e|TS|subject"] ["h2|a2|e2|TS|s2"] "bad|line"
      (Or.inl (by decide))⟩

theorem not_eq_false_iff (b : Bool) : (!b) = false ↔ b = true := by
  cases b <;> simp

theorem not_eq_true_iff (b : Bool) : (!b) = true ↔ b = false := by
  cases b <;> simp

theorem counts_split (fs : List Finding) :
    fs.countP (fun f => f.Severity == SeverityHigh) +
      fs.countP (fun f => f.Severity == SeverityMedium) +
      fs.countP (fun f => f.Severity == SeverityLow) +
      fs.countP (fun f => !(f.Severity == SeverityHigh ||
        f.Severity == SeverityMedium || f.Severity == SeverityLow)) =
      fs.length := by
  induction fs with
  | nil => rfl
  | cons f fs ih =>
    simp only [List.countP_cons, List.length_cons]
    by_cases hH : f.Severity = SeverityHigh <;>
      by_cases hM : f.Severity = SeverityMedium <;>
      by_cases hL : f.Severity = SeverityLow <;>
      simp_all [SeverityHigh, SeverityMedium, SeverityLow] <;> omega

/-- C10: severity is not validated: the three per-severity counts sum to
the total exactly when every finding carries one of High, Medium or Low,
and a decodable response carrying any other severity string is still
accepted by parseResponse while making the sum strictly smaller than the
total. -/
theorem severity_not_validated :
    (∀ r : Report,
      r.HighCount + r.MediumCount + r.LowCount = r.TotalFindings ↔
      ∀ f ∈ r.Findings, f.Severity = SeverityHigh ∨
        f.Severity = SeverityMedium ∨ f.Severity = SeverityLow) ∧
    (∀ (unmarshal : String → Option ReviewOutput) (resp : String)
        (out : ReviewOutput) (r : Report),
      unmarshal (parseResponseStrip resp) = some out →
      r.Findings = out.Findings →
      (∃ f ∈ out.Findings, ¬(f.Severity = SeverityHigh ∨
        f.Severity = SeverityMedium ∨ f.Severity = SeverityLow)) →
      parseResponse unmarshal resp = some out ∧
      r.HighCount + r.MediumCount + r.LowCount < r.TotalFindings) := by
  constructor
  · intro r
    have hsplit := counts_split r.Findings
    simp only [Report.HighCount, Report.MediumCount, Report.LowCount,
      Report.TotalFindings]
    constructor
    · intro hsum f hf
      have hzero : r.Findings.countP (fun f => !(f.Severity == SeverityHigh ||
          f.Severity == SeverityMedium || f.Severity == SeverityLow)) = 0 := by
        omega
      have h2 := List.countP_eq_zero.mp hzero f hf
      rw [Bool.not_eq_true, not_eq_false_iff] at h2
      simp only [Bool.or_eq_true, beq_iff_eq] at h2
      tauto
    · intro hall
      have hzero : r.Findings.countP (fun f => !(f.Severity == SeverityHigh ||
          f.Severity == SeverityMedium || f.Severity == SeverityLow)) = 0 :=
        List.countP_eq_zero.mpr (fun f hf => by
          have h3 := hall f hf
          rw [Bool.not_eq_true, not_eq_false_iff]
          simp only [Bool.or_eq_true, beq_iff_eq]
          tauto)
      omega
  · intro unmarshal resp out r hum hfind hbad
    refine ⟨hum, ?_⟩
    obtain ⟨f, hf, hbadf⟩ := hbad
    have hsplit := counts_split r.Findings
    have hpos : 0 < r.Findings.countP (fun f => !(f.Severity == SeverityHigh ||
        f.Severity == SeverityMedium || f.Severity == SeverityLow)) :=
      List.countP_pos_iff.mpr ⟨f, by rw [hfind]; exact hf, by
        rw [not_eq_true_iff]
        simp only [Bool.or_eq_false_iff, beq_eq_false_iff_ne]
        tauto⟩
    simp only [Report.HighCount, Report.MediumCount, Report.LowCount,
      Report.TotalFindings]
    omega

/-- C10 witness: a response decoding to a finding with severity Critical
is accepted by parseResponse and its report has count sum 0 against total
1. -/
theorem severity_not_validated_witness :
    parseResponse criticalUnmarshal "CRIT" = some criticalOutput ∧
    criticalReport.HighCount + criticalReport.MediumCount +
        criticalReport.LowCount < criticalReport.TotalFindings :=
  severity_not_validated.2 criticalUnmarshal "CRIT" criticalOutput
    criticalReport (by decide) rfl
    ⟨criticalFinding, by decide, by decide⟩

theorem strData_append (a b : String) : (a ++ b).data = a.data ++ b.data := by
  cases a; cases b; rfl

theorem dropWhile_head_false (p : Char → Bool) (l : List Char) (a : Char)
    (t : List Char) (h : l.dropWhile p = a :: t) : p a = false := by
  induction l with
  | nil => simp at h
  | cons b bs ih =>
    rw [List.dropWhile_cons] at h
    by_cases hb : p b
    · rw [if_pos hb] at h; exact ih h
    · rw [if_neg hb] at h; cases h; exact Bool.of_not_eq_true hb

theorem dropWhile_dropWhile (p : Char → Bool) (l : List Char) :
    (l.dropWhile p).dropWhile p = l.dropWhile p := by
  cases h : l.dropWhile p with
  | nil => rfl
  | cons a t =>
    rw [List.dropWhile_cons, dropWhile_head_false p l a t h]
    simp

theorem trimChars_cons_space (c : Char) (l : List Char)
    (h : isSpaceChar c = true) : trimChars (c :: l) = trimChars l := by
  simp [trimChars, List.dropWhile_cons, h]

theorem trimChars_append_space (c : Char) (l : List Char)
    (h : isSpaceChar c = true) : trimChars (l ++ [c]) = trimChars l := by
  unfold trimChars
  rw [List.dropWhile_append]
  by_cases hA : (l.dropWhile isSpaceChar).isEmpty
  · rw [if_pos hA]
    rw [List.isEmpty_iff] at hA
    simp [hA, List.dropWhile_cons, h]
  · rw [if_neg hA]
    rw [List.isEmpty_iff] at hA
    simp [List.reverse_append, List.dropWhile_cons, h]

theorem trimChars_idem (l : List Char) :
    trimChars (trimChars l) = trimChars l := by
  set A := l.dropWhile isSpaceChar with hA
  set B := A.reverse.dropWhile isSpaceChar with hB
  have htl : trimChars l = B.reverse := rfl
  rw [htl]
  unfold trimChars
  have h1 : B.reverse.dropWhile isSpaceChar = B.reverse := by
    cases hBr : B.reverse with
    | nil => simp
    | cons a t =>
      have hsuf : B <:+ A.reverse := by rw [hB]; exact List.dropWhile_suffix _
      have hpre : B.reverse <+: A := by
        have h' : B.reverse <+: A.reverse.reverse := List.reverse_prefix.mpr hsuf
        rwa [List.reverse_reverse] at h'
      obtain ⟨u, hu⟩ := hpre
      rw [hBr] at hu
      have hAform : l.dropWhile isSpaceChar = a :: (t ++ u) := by
        rw [← hA, ← hu]; simp
      have hfa : isSpaceChar a = false :=
        dropWhile_head_false isSpaceChar l a (t ++ u) hAform
      rw [List.dropWhile_cons, hfa]
      simp
  rw [h1, List.reverse_reverse]
  have h2 : B.dropWhile isSpaceChar = B := by
    rw [hB]; exact dropWhile_dropWhile _ _
  rw [h2]

theorem trimChars_eq_self_of (a b : Char) (m : List Char)
    (ha : isSpaceChar a = false) (hb : isSpaceChar b = false) :
    trimChars (a :: (m ++ [b])) = a :: (m ++ [b]) := by
  simp [trimChars, List.dropWhile_cons, ha, hb, List.reverse_append]

theorem isPrefixOf_eq_false_of_length_lt (sub l : List Char)
    (h : l.length < sub.length) : sub.isPrefixOf l = false := by
  induction sub generalizing l with
  | nil => simp at h
  | cons a as ih =>
    cases l with
    | nil => rfl
    | cons b bs =>
      simp only [List.isPrefixOf]
      rw [ih bs (by simpa using h)]
      simp

theorem lastIndexFrom_stable (s sub : List Char) (k : Nat) :
    ∀ n, k ≤ n →
      (∀ i, k < i → i ≤ n → sub.isPrefixOf (s.drop i) = false) →
      lastIndexFrom s sub n = lastIndexFrom s sub k := by
  intro n
  induction n with
  | zero =>
    intro hk _
    rw [Nat.le_zero.mp hk]
  | succ n ih =>
    intro hk hfalse
    rcases Nat.eq_or_lt_of_le hk with heq | hlt
    · rw [heq]
    · have hk' : k ≤ n := Nat.lt_succ_iff.mp hlt
      rw [lastIndexFrom, hfalse (n + 1) (by omega) le_rfl]
      simp only [Bool.false_eq_true, if_false]
      exact ih hk' (fun i h1 h2 => hfalse i h1 (by omega))

theorem lastIndex_append (s sub : List Char) (hsub : sub ≠ []) :
    lastIndex (s ++ sub) sub = some s.length := by
  unfold lastIndex
  have hself : sub.isPrefixOf sub = true :=
    List.isPrefixOf_iff_prefix.mpr (List.prefix_refl _)
  have hfalse : ∀ i, s.length < i → i ≤ (s ++ sub).length →
      sub.isPrefixOf ((s ++ sub).drop i) = false := by
    intro i h1 h2
    have hdrop : (s ++ sub).drop i = sub.drop (i - s.length) := by
      rw [show i = s.length + (i - s.length) from by omega, List.drop_append]
      congr 1
      omega
    rw [hdrop]
    apply isPrefixOf_eq_false_of_length_lt
    have hpos : 0 < sub.length := List.length_pos.mpr hsub
    rw [List.length_drop]
    omega
  rw [lastIndexFrom_stable (s ++ sub) sub s.length ((s ++ sub).length)
    (by simp) hfalse]
  cases hn : s.length with
  | zero =>
    have hs : s = [] := List.length_eq_zero.mp hn
    subst hs
    rw [lastIndexFrom]
    simp [hself]
  | succ n =>
    rw [lastIndexFrom]
    have hd : (s ++ sub).drop (n + 1) = sub := by
      rw [← hn]; exact List.drop_left ..
    rw [hd, hself]
    simp

theorem stripChars_unfenced (L : List Char)
    (hJ : ("```".data).isPrefixOf (trimChars L) = false) :
    stripChars L = trimChars L := by
  have hc1 : ("```json".data).isPrefixOf (trimChars L) = false := by
    cases hx : ("```json".data).isPrefixOf (trimChars L)
    · rfl
    · exfalso
      have hp : ("```json".data) <+: (trimChars L) :=
        List.isPrefixOf_iff_prefix.mp hx
      have h3 : ("```".data) <+: ("```json".data) := by decide
      have h4 : ("```".data).isPrefixOf (trimChars L) = true :=
        List.isPrefixOf_iff_prefix.mpr (h3.trans hp)
      rw [hJ] at h4
      exact Bool.noConfusion h4
  simp only [stripChars, hc1, hJ, Bool.false_eq_true, if_false]
  exact trimChars_idem L

theorem stripChars_fence_tail (L : List Char) :
    trimChars ((('\n' :: L) ++ ['\n','`','`','`']).take
      ((('\n' :: L) ++ ['\n']).length)) = trimChars L := by
  have hR : ('\n' :: L) ++ ['\n','`','`','`']
      = (('\n' :: L) ++ ['\n']) ++ "```".data := by simp
  rw [hR, List.take_left, trimChars_append_space '\n' ('\n' :: L) rfl,
    trimChars_cons_space '\n' L rfl]

theorem stripChars_fenced_json (L : List Char) :
    stripChars ("```json".data ++ (('\n' :: L) ++ ['\n','`','`','`'])) =
      trimChars L := by
  have hsplit : "```json".data ++ (('\n' :: L) ++ ['\n','`','`','`'])
      = '`' :: (('`' :: '`' :: 'j' :: 's' :: 'o' :: 'n' :: '\n' ::(L ++ ['\n','`','`'])) ++ ['`']) := by
    simp [show "```json".data = ['`','`','`','j','s','o','n'] from rfl]
  have ht0 : trimChars ("```json".data ++ (('\n' :: L) ++ ['\n','`','`','`']))
      = "```json".data ++ (('\n' :: L) ++ ['\n','`','`','`']) := by
    rw [hsplit]
    exact trimChars_eq_self_of _ _ _ rfl rfl
  have hc1 : ("```json".data).isPrefixOf
      ("```json".data ++ (('\n' :: L) ++ ['\n','`','`','`'])) = true :=
    List.isPrefixOf_iff_prefix.mpr (List.prefix_append _ _)
  have hR : ('\n' :: L) ++ ['\n','`','`','`']
      = (('\n' :: L) ++ ['\n']) ++ "```".data := by simp
  simp only [stripChars, ht0, hc1, if_true, List.drop_left]
  rw [hR, lastIndex_append _ _ (by simp), ← hR]
  exact stripChars_fence_tail L

theorem stripChars_fenced_bare (L : List Char) :
    stripChars ("```".data ++ (('\n' :: L) ++ ['\n','`','`','`'])) =
      trimChars L := by
  have hsplit : "```".data ++ (('\n' :: L) ++ ['\n','`','`','`'])
      = '`' :: (('`' :: '`' :: '\n' ::(L ++ ['\n','`','`'])) ++ ['`']) := by
    simp [show "```".data = ['`','`','`'] from rfl]
  have ht0 : trimChars ("```".data ++ (('\n' :: L) ++ ['\n','`','`','`']))
      = "```".data ++ (('\n' :: L) ++ ['\n','`','`','`']) := by
    rw [hsplit]
    exact trimChars_eq_self_of _ _ _ rfl rfl
  have hc1 : ("```json".data).isPrefixOf
      ("```".data ++ (('\n' :: L) ++ ['\n','`','`','`'])) = false := by
    rw [show "```".data ++ (('\n' :: L) ++ ['\n','`','`','`'])
        = '`' :: '`' :: '`' :: '\n' ::(L ++ ['\n','`','`','`']) from by simp [show "```".data = ['`','`','`'] from rfl],
      show "```json".data = ['`','`','`','j','s','o','n'] from rfl]
    simp [List.isPrefixOf, show ('j' == '\n') = false from rfl]
  have hc2 : ("```".data).isPrefixOf
      ("```".data ++ (('\n' :: L) ++ ['\n','`','`','`'])) = true :=
    List.isPrefixOf_iff_prefix.mpr (List.prefix_append _ _)
  have hR : ('\n' :: L) ++ ['\n','`','`','`']
      = (('\n' :: L) ++ ['\n']) ++ "```".data := by simp
  simp only [stripChars, ht0, hc1, Bool.false_eq_true, if_false, hc2, if_true,
    List.drop_left]
  rw [hR, lastIndex_append _ _ (by simp), ← hR]
  exact stripChars_fence_tail L

/-- C4 (amended): a well-formed response (one that does not itself begin
with a fence marker after trimming) wrapped in a fenced block with the
language tag json, or with no tag, parses to exactly the same output as
the unwrapped response. -/
theorem parse_response_fence_tolerant (unmarshal : String → Option ReviewOutput)
    (J tag : String) (htag : tag = "json" ∨ tag = "")
    (hJ : ("```".data).isPrefixOf (trimSpace J).data = false) :
    parseResponse unmarshal (fenceWrap tag J) = parseResponse unmarshal J := by
  rw [parseResponse, parseResponse, parseResponseStrip, parseResponseStrip]
  have hstripJ : stripChars J.data = trimChars J.data :=
    stripChars_unfenced J.data hJ
  rcases htag with rfl | rfl
  · have hW : (fenceWrap "json" J).data
        = "```json".data ++ (('\n' :: J.data) ++ ['\n','`','`','`']) := by
      simp [fenceWrap, strData_append,
        show "```".data = ['`','`','`'] from rfl,
        show "json".data = ['j','s','o','n'] from rfl,
        show "\n".data = ['\n'] from rfl,
        show "\n```".data = ['\n','`','`','`'] from rfl,
        show "```json".data = ['`','`','`','j','s','o','n'] from rfl]
    rw [hW, stripChars_fenced_json, hstripJ]
  · have hW : (fenceWrap "" J).data
        = "```".data ++ (('\n' :: J.data) ++ ['\n','`','`','`']) := by
      simp [fenceWrap, strData_append,
        show "```".data = ['`','`','`'] from rfl,
        show "\n".data = ['\n'] from rfl,
        show "\n```".data = ['\n','`','`','`'] from rfl,
        show ("".data : List Char) = [] from rfl]
    rw [hW, stripChars_fenced_bare, hstripJ]


/-- C4 counterexample: the same JSON object wrapped with the language tag
go fails to parse, while unwrapped it parses; so parsing is not tolerant
of arbitrary language tags. -/
theorem parse_response_fence_counterexample :
    parseResponse sampleUnmarshal jsonResponseText = some jsonResponseOutput ∧
    parseResponse sampleUnmarshal (fenceWrap "go" jsonResponseText) = none := by
  decide

/-- C4 witness: the sample JSON response wrapped with the json tag parses
identically to the unwrapped response. -/
theorem parse_response_fence_witness :
    parseResponse sampleUnmarshal (fenceWrap "json" jsonResponseText) =
      parseResponse sampleUnmarshal jsonResponseText :=
  parse_response_fence_tolerant sampleUnmarshal jsonResponseText "json"
    (Or.inl rfl) (by decide)

end CodeReviewer
